import Mathlib

/-!
Shallow embedding of the USDA NASS QuickStats ingestion pipeline
(`src/ingest/quickstats.py`) and proofs of the specification claims.

The pipeline: a static catalog (`DATASETS`) maps a dataset key to query
parameters, display metadata and a list of year windows.  `run` loads the
persisted completion state, expands the catalog into pending jobs (one per
dataset x year window whose id is not yet completed), and for each pending
job calls `fetch_data`, stores the non-empty result, marks the job complete
and persists the full completed set.  `fetch_data` builds a percent-encoded
query string, sends it, raises on an `error` field, returns `[]` when no
`data` field is present, and the `data` list otherwise.

HTTP transport is modelled by an oracle `respond : String → Except String
ApiResponse`; a transport failure or an exception from response parsing is
an `Except.error`.  Side effects of the run loop (fetch calls, storage
calls, state saves, rate-limit sleeps) are recorded in a trace of `Event`s.
The completed set uses `Finset String`, matching the Python `set`.
-/

namespace NASS

/-- Records returned by the remote API are opaque flat objects; their shape
is irrelevant to the pipeline, which passes them through unmodified. -/
abbrev RecordObj := List (String × String)

/-- One catalog entry (value of the `DATASETS` dict): query parameters,
display name, description, and the list of inclusive year windows. -/
structure DatasetInfo where
  params : List (String × String)
  name : String
  desc : String
  year_ranges : List (Nat × Nat)
deriving DecidableEq

/-- One unit of work, as built by the loop at quickstats.py:487-491:
the tuple `(dataset_key, dataset_info, year_start, year_end, job_key)`. -/
structure Job where
  dataset_key : String
  info : DatasetInfo
  year_start : Nat
  year_end : Nat
  job_key : String
deriving DecidableEq

/-- The job id string `f"{dataset_key}_{year_start}_{year_end}"`. -/
def jobKey (dataset_key : String) (year_start year_end : Nat) : String :=
  dataset_key ++ "_" ++ toString year_start ++ "_" ++ toString year_end

/-- A `Job` as the run loop builds it: its stored `job_key` really is the
id derived from its components. -/
def wfJob (j : Job) : Prop :=
  j.job_key = jobKey j.dataset_key j.year_start j.year_end

/-- Job planning and pending filtering, fused as in the source: for each
catalog entry in order and each year window in order, build the job id and
keep the job iff the id is not in `completed` (quickstats.py:486-491). -/
def allJobs (datasets : List (String × DatasetInfo)) (completed : Finset String) :
    List Job :=
  datasets.flatMap fun kd =>
    kd.2.year_ranges.filterMap fun yr =>
      let jk := jobKey kd.1 yr.1 yr.2
      if jk ∈ completed then none
      else some ⟨kd.1, kd.2, yr.1, yr.2, jk⟩

/-- The full planned job list of a catalog: the same expansion with an
empty completion set (nothing filtered out). -/
def planJobs (datasets : List (String × DatasetInfo)) : List Job :=
  allJobs datasets ∅

/-- The JSON body of an API response, restricted to the two fields the
pipeline inspects: the optional `error` field (with its message) and the
optional `data` field (with its record list). -/
structure ApiResponse where
  error : Option String
  data : Option (List RecordObj)
deriving DecidableEq

def BASE_URL : String := "https://quickstats.nass.usda.gov/api"

/-- Python `urllib.parse.quote` keeps ASCII letters, digits, `_.-~` and the
default safe character `/`; everything else is percent-encoded. -/
def isSafeChar (c : Char) : Bool :=
  c.isAlpha || c.isDigit || c == '_' || c == '.' || c == '-' || c == '~' || c == '/'

/-- Uppercase hexadecimal digit for `n < 16`. -/
def hexDigitChar (n : Nat) : Char :=
  if n < 10 then Char.ofNat (48 + n) else Char.ofNat (55 + n)

/-- UTF-8 bytes of a code point, as CPython encodes non-safe characters. -/
def utf8Bytes (n : Nat) : List Nat :=
  if n < 0x80 then [n]
  else if n < 0x800 then [0xC0 + n / 0x40, 0x80 + n % 0x40]
  else if n < 0x10000 then
    [0xE0 + n / 0x1000, 0x80 + (n / 0x40) % 0x40, 0x80 + n % 0x40]
  else
    [0xF0 + n / 0x40000, 0x80 + (n / 0x1000) % 0x40,
     0x80 + (n / 0x40) % 0x40, 0x80 + n % 0x40]

/-- Percent-encoding of one character: kept verbatim when safe, otherwise
each UTF-8 byte becomes `%XX` with uppercase hex. -/
def quoteChar (c : Char) : String :=
  if isSafeChar c then String.singleton c
  else String.join ((utf8Bytes c.toNat).map fun b =>
    String.mk ['%', hexDigitChar (b / 16), hexDigitChar (b % 16)])

/-- Python `urllib.parse.quote(s)` with the default `safe='/'`. -/
def quote (s : String) : String :=
  String.join (s.data.map quoteChar)

/-- Inserting one key/value pair into a Python dict held as an ordered
association list: an existing key keeps its position and gets the new
value, a new key is appended. -/
def dictInsert (d : List (String × String)) (kv : String × String) :
    List (String × String) :=
  if d.any fun p => decide (p.1 = kv.1) then
    d.map fun p => if p.1 = kv.1 then (p.1, kv.2) else p
  else d ++ [kv]

/-- The dict built from a sequence of key/value pairs (later pairs win),
as in the display `{**a, **b}`. -/
def dictOfList (l : List (String × String)) : List (String × String) :=
  l.foldl dictInsert []

/-- First-match lookup in an ordered association list. -/
def dictGet (d : List (String × String)) (k : String) : Option String :=
  match d with
  | [] => none
  | kv :: rest => if kv.1 = k then some kv.2 else dictGet rest k

/-- The fixed query parameters of quickstats.py:454-458: API key, JSON
format selector, and the stringified inclusive year bounds. -/
def fixedParams (apiKey : String) (year_start year_end : Nat) :
    List (String × String) :=
  [("key", apiKey), ("format", "JSON"),
   ("year__GE", toString year_start), ("year__LE", toString year_end)]

/-- The merged `query_params` dict of quickstats.py:454-460: the fixed
parameters first, then the dataset's literal params, later entries
overriding earlier ones (`{**fixed, **params}`). -/
def queryParams (apiKey : String) (params : List (String × String))
    (year_start year_end : Nat) : List (String × String) :=
  dictOfList (fixedParams apiKey year_start year_end ++ params)

/-- The query string of quickstats.py:463: `k=quote(v)` pairs joined by
`&`, in dict order. -/
def queryStringOf (apiKey : String) (params : List (String × String))
    (year_start year_end : Nat) : String :=
  String.intercalate "&"
    ((queryParams apiKey params year_start year_end).map fun kv =>
      kv.1 ++ "=" ++ quote kv.2)

/-- The request URL of quickstats.py:464. -/
def urlFor (apiKey : String) (params : List (String × String))
    (year_start year_end : Nat) : String :=
  BASE_URL ++ "/api_GET/?" ++ queryStringOf apiKey params year_start year_end

/-- `fetch_data` (quickstats.py:452-475): build the URL, send it, raise a
`RuntimeError` carrying the remote error text when the body has an `error`
field, return `[]` when it has no `data` field, else the `data` list.  A
transport failure from `get`/`.json()` propagates as `Except.error`. -/
def fetch_data (apiKey : String) (params : List (String × String))
    (year_start year_end : Nat)
    (respond : String → Except String ApiResponse) :
    Except String (List RecordObj) :=
  match respond (urlFor apiKey params year_start year_end) with
  | .error e => .error e
  | .ok result =>
    match result.error with
    | some e => .error ("NASS API error: " ++ e)
    | none =>
      match result.data with
      | none => .ok []
      | some d => .ok d

/-- The payload handed to `save_raw_json` (quickstats.py:506-513). -/
structure Payload where
  key : String
  name : String
  description : String
  year_start : Nat
  year_end : Nat
  data : List RecordObj
deriving DecidableEq

/-- The storage identifier `f"nass_{dataset_key}_{year_start}_{year_end}"`
(quickstats.py:514). -/
def saveIdent (j : Job) : String :=
  "nass_" ++ jobKey j.dataset_key j.year_start j.year_end

/-- The stored payload for job `j` with fetched records `data`. -/
def storePayload (j : Job) (data : List RecordObj) : Payload :=
  ⟨j.dataset_key, j.info.name, j.info.desc, j.year_start, j.year_end, data⟩

/-- Observable side effects of the run loop, in program order. -/
inductive Event where
  | fetchCall (job_key : String)
  | storeCall (ident : String) (payload : Payload) (compress : Bool)
  | stateSave (completed : Finset String)
  | sleepCall
deriving DecidableEq

/-- The per-job loop of `run` (quickstats.py:499-523): fetch, store when
non-empty, add the job id to the completed set, persist the full set,
sleep.  An `Except.error` from the fetch step is uncaught: the run aborts
with that error, having recorded only the fetch attempt.  Returns the
event trace, the final in-memory completed set, and the uncaught error if
any. -/
def runLoop (apiKey : String) (respond : String → Except String ApiResponse) :
    List Job → Finset String → List Event × Finset String × Option String
  | [], completed => ([], completed, none)
  | j :: rest, completed =>
    match fetch_data apiKey j.info.params j.year_start j.year_end respond with
    | .error e => ([Event.fetchCall j.job_key], completed, some e)
    | .ok data =>
      let completed' := insert j.job_key completed
      let r := runLoop apiKey respond rest completed'
      (Event.fetchCall j.job_key ::
        ((if data.isEmpty then []
          else [Event.storeCall (saveIdent j) (storePayload j data) true]) ++
          Event.stateSave completed' :: Event.sleepCall :: r.1),
       r.2)

/-- `run` (quickstats.py:478-525): load the persisted completion state
once, build the pending job list, return immediately when it is empty,
otherwise execute the loop. -/
def run (datasets : List (String × DatasetInfo)) (apiKey : String)
    (respond : String → Except String ApiResponse)
    (persisted : Finset String) :
    List Event × Finset String × Option String :=
  let completed := persisted
  let all_jobs := allJobs datasets completed
  if all_jobs.isEmpty then ([], completed, none)
  else runLoop apiKey respond all_jobs completed

/-- The sequence of completed sets persisted by `save_state`, in trace
order. -/
def savedStates (evts : List Event) : List (Finset String) :=
  evts.filterMap fun e =>
    match e with
    | .stateSave s => some s
    | _ => none

/-- No persisted state in the trace contains the given job id. -/
def noSaveContains (jk : String) (evts : List Event) : Bool :=
  evts.all fun e =>
    match e with
    | .stateSave s => decide (jk ∉ s)
    | _ => true

/-- No storage call in the trace uses the given identifier. -/
def noStoreForIdent (i : String) (evts : List Event) : Bool :=
  evts.all fun e =>
    match e with
    | .storeCall i' _ _ => !(i' == i)
    | _ => true

/-- Walking the trace, no persisted state contains `jk` before the event
`tgt` (the job's storage call) has occurred; once `tgt` is seen the rest of
the trace is unconstrained. -/
def storedBeforeMarked (jk : String) (tgt : Event) : List Event → Bool
  | [] => true
  | e :: rest =>
    if e = tgt then true
    else
      (match e with
       | .stateSave s => decide (jk ∉ s)
       | _ => true) && storedBeforeMarked jk tgt rest

/-- Value of the last pair with the given key in a pair sequence, the
precedence that building a Python dict from the sequence gives. -/
def lastVal : List (String × String) → String → Option String
  | [], _ => none
  | kv :: rest, k =>
    match lastVal rest k with
    | some v => some v
    | none => if kv.1 = k then some kv.2 else none

theorem dictGet_append (l₁ l₂ : List (String × String)) (k : String) :
    dictGet (l₁ ++ l₂) k =
      match dictGet l₁ k with
      | some v => some v
      | none => dictGet l₂ k := by
  induction l₁ with
  | nil => simp [dictGet]
  | cons kv rest ih =>
    by_cases h : kv.1 = k <;> simp [dictGet, h, ih]

theorem dictGet_eq_none_of_not_mem {l : List (String × String)} {k : String}
    (h : k ∉ l.map Prod.fst) : dictGet l k = none := by
  induction l with
  | nil => rfl
  | cons kv rest ih =>
    simp only [List.map_cons, List.mem_cons] at h
    push_neg at h
    simp [dictGet, Ne.symm h.1, ih h.2]

theorem dictGet_map_ne {l : List (String × String)} {kv : String × String}
    {k : String} (h : kv.1 ≠ k) :
    dictGet (l.map fun p => if p.1 = kv.1 then (p.1, kv.2) else p) k
      = dictGet l k := by
  induction l with
  | nil => rfl
  | cons p rest ih =>
    by_cases hp : p.1 = kv.1
    · simp [dictGet, hp, Ne.symm (hp ▸ h), ih, h]
    · simp only [List.map_cons, if_neg hp, dictGet, ih]

theorem dictGet_map_eq {l : List (String × String)} {kv : String × String}
    (h : (l.any fun p => decide (p.1 = kv.1)) = true) :
    dictGet (l.map fun p => if p.1 = kv.1 then (p.1, kv.2) else p) kv.1
      = some kv.2 := by
  induction l with
  | nil => simp at h
  | cons p rest ih =>
    by_cases hp : p.1 = kv.1
    · simp [dictGet, hp]
    · have hrest : (rest.any fun p => decide (p.1 = kv.1)) = true := by
        simpa [List.any_cons, hp] using h
      simp [dictGet, hp, ih hrest]

theorem dictGet_dictInsert (d : List (String × String)) (kv : String × String)
    (k : String) :
    dictGet (dictInsert d kv) k =
      if kv.1 = k then some kv.2 else dictGet d k := by
  unfold dictInsert
  cases hany : (d.any fun p => decide (p.1 = kv.1)) with
  | true =>
    simp only [hany, if_true]
    by_cases hk : kv.1 = k
    · subst hk; simp [dictGet_map_eq hany]
    · simp [dictGet_map_ne hk, hk]
  | false =>
    simp only [hany, Bool.false_eq_true, if_false]
    rw [dictGet_append]
    have hnone : dictGet d kv.1 = none := by
      apply dictGet_eq_none_of_not_mem
      intro hmem
      rcases List.mem_map.mp hmem with ⟨p, hp, hpk⟩
      have : (d.any fun p => decide (p.1 = kv.1)) = true :=
        List.any_eq_true.mpr ⟨p, hp, by simp [hpk]⟩
      simp [this] at hany
    by_cases hk : kv.1 = k
    · subst hk; simp [hnone, dictGet]
    · cases hget : dictGet d k <;> simp [dictGet, hget, hk, Ne.symm hk]

theorem dictGet_foldl (l : List (String × String)) (d : List (String × String))
    (k : String) :
    dictGet (l.foldl dictInsert d) k =
      match lastVal l k with
      | some v => some v
      | none => dictGet d k := by
  induction l generalizing d with
  | nil => simp [lastVal]
  | cons kv rest ih =>
    simp only [List.foldl_cons, lastVal]
    rw [ih]
    cases hrest : lastVal rest k with
    | some v => simp
    | none =>
      rw [dictGet_dictInsert]
      by_cases hk : kv.1 = k <;> simp [hk]

theorem dictGet_dictOfList (l : List (String × String)) (k : String) :
    dictGet (dictOfList l) k = lastVal l k := by
  rw [dictOfList, dictGet_foldl]
  cases h : lastVal l k <;> simp [dictGet]

theorem lastVal_append (l₁ l₂ : List (String × String)) (k : String) :
    lastVal (l₁ ++ l₂) k =
      match lastVal l₂ k with
      | some v => some v
      | none => lastVal l₁ k := by
  induction l₁ with
  | nil => cases h : lastVal l₂ k <;> simp [lastVal, h]
  | cons kv rest ih =>
    cases hl₂ : lastVal l₂ k <;> cases hr : lastVal rest k <;>
      simp [lastVal, List.cons_append, ih, hl₂, hr]

theorem lastVal_eq_none_of_not_mem {l : List (String × String)} {k : String}
    (h : k ∉ l.map Prod.fst) : lastVal l k = none := by
  induction l with
  | nil => rfl
  | cons kv rest ih =>
    simp only [List.map_cons, List.mem_cons] at h
    push_neg at h
    simp [lastVal, ih h.2, Ne.symm h.1]

theorem lastVal_eq_dictGet_of_nodup {l : List (String × String)}
    (h : (l.map Prod.fst).Nodup) (k : String) : lastVal l k = dictGet l k := by
  induction l with
  | nil => rfl
  | cons kv rest ih =>
    simp only [List.map_cons, List.nodup_cons] at h
    by_cases hk : kv.1 = k
    · have : lastVal rest k = none :=
        lastVal_eq_none_of_not_mem (by rw [← hk]; exact h.1)
      simp [lastVal, dictGet, this, hk]
    · cases hr : dictGet rest k <;>
        simp [lastVal, dictGet, ih h.2, hr, hk]

/-- Lookup in the merged query dict: a key present in the dataset's params
takes its value from there, otherwise from the fixed parameters. -/
theorem dictGet_queryParams (apiKey : String) (params : List (String × String))
    (year_start year_end : Nat) (k : String)
    (hnd : (params.map Prod.fst).Nodup) :
    dictGet (queryParams apiKey params year_start year_end) k =
      match dictGet params k with
      | some v => some v
      | none => dictGet (fixedParams apiKey year_start year_end) k := by
  rw [queryParams, dictGet_dictOfList, lastVal_append,
    lastVal_eq_dictGet_of_nodup hnd,
    lastVal_eq_dictGet_of_nodup (l := fixedParams apiKey year_start year_end)
      (by simp [fixedParams])]

theorem char_toNat_lt (c : Char) : c.toNat < 0x110000 := by
  rcases c.valid with h | ⟨h1, h2⟩
  · exact Nat.lt_trans h (by norm_num)
  · exact h2

theorem mem_utf8Bytes_lt {n : Nat} (hn : n < 0x110000) {b : Nat}
    (hb : b ∈ utf8Bytes n) : b < 256 := by
  unfold utf8Bytes at hb
  split at hb
  · simp at hb; omega
  · split at hb
    · simp at hb; rcases hb with hb | hb <;> omega
    · split at hb
      · simp at hb; rcases hb with hb | hb | hb <;> omega
      · simp at hb; rcases hb with hb | hb | hb | hb <;> omega

theorem hexDigitChar_safe {n : Nat} (h : n < 16) :
    isSafeChar (hexDigitChar n) = true := by
  interval_cases n <;> decide

theorem mem_quoteChar_data {c c' : Char} (h : c' ∈ (quoteChar c).data) :
    isSafeChar c' = true ∨ c' = '%' := by
  unfold quoteChar at h
  by_cases hs : isSafeChar c
  · simp only [hs, if_true] at h
    have : c' = c := by simpa [String.singleton] using h
    exact Or.inl (this ▸ hs)
  · simp only [hs, Bool.false_eq_true, if_false] at h
    rw [String.data_join] at h
    simp only [List.map_map, List.mem_flatten, List.mem_map,
      Function.comp] at h
    rcases h with ⟨l, ⟨b, hb, rfl⟩, hcl⟩
    have hb256 : b < 256 := mem_utf8Bytes_lt (char_toNat_lt c) hb
    simp only [String.mk, List.mem_cons] at hcl
    rcases hcl with rfl | hcl
    · exact Or.inr rfl
    · rcases hcl with rfl | hcl
      · exact Or.inl (hexDigitChar_safe (by omega))
      · rcases hcl with rfl | hcl
        · exact Or.inl (hexDigitChar_safe (by omega))
        · simp at hcl

/-- Every character of a percent-encoded value is either URL-safe or part
of a `%XX` escape; in particular nothing unsafe (such as a space) survives
unencoded. -/
theorem mem_quote_data {s : String} {c' : Char} (h : c' ∈ (quote s).data) :
    isSafeChar c' = true ∨ c' = '%' := by
  unfold quote at h
  rw [String.data_join] at h
  simp only [List.map_map, List.mem_flatten, List.mem_map,
    Function.comp] at h
  rcases h with ⟨l, ⟨c, _, rfl⟩, hcl⟩
  exact mem_quoteChar_data hcl

theorem space_not_mem_quote (s : String) : ' ' ∉ (quote s).data := by
  intro h
  rcases mem_quote_data h with h' | h' <;> revert h' <;> decide

theorem runLoop_nil (apiKey : String) (respond : String → Except String ApiResponse)
    (c : Finset String) : runLoop apiKey respond [] c = ([], c, none) := rfl

theorem runLoop_cons_error {apiKey : String}
    {respond : String → Except String ApiResponse} {j : Job} {e : String}
    (rest : List Job) (c : Finset String)
    (hf : fetch_data apiKey j.info.params j.year_start j.year_end respond
      = .error e) :
    runLoop apiKey respond (j :: rest) c
      = ([Event.fetchCall j.job_key], c, some e) := by
  simp [runLoop, hf]

theorem runLoop_cons_ok {apiKey : String}
    {respond : String → Except String ApiResponse} {j : Job}
    {data : List RecordObj} (rest : List Job) (c : Finset String)
    (hf : fetch_data apiKey j.info.params j.year_start j.year_end respond
      = .ok data) :
    runLoop apiKey respond (j :: rest) c
      = (Event.fetchCall j.job_key ::
          ((if data.isEmpty then []
            else [Event.storeCall (saveIdent j) (storePayload j data) true]) ++
            Event.stateSave (insert j.job_key c) :: Event.sleepCall ::
              (runLoop apiKey respond rest (insert j.job_key c)).1),
         (runLoop apiKey respond rest (insert j.job_key c)).2) := by
  simp [runLoop, hf]

/-- The in-memory completed set only grows over the loop. -/
theorem runLoop_mono (apiKey : String)
    (respond : String → Except String ApiResponse) :
    ∀ (jobs : List Job) (c : Finset String),
      c ⊆ (runLoop apiKey respond jobs c).2.1 := by
  intro jobs
  induction jobs with
  | nil => intro c; simp [runLoop_nil]
  | cons j rest ih =>
    intro c
    cases hf : fetch_data apiKey j.info.params j.year_start j.year_end respond with
    | error e => rw [runLoop_cons_error rest c hf]
    | ok data =>
      rw [runLoop_cons_ok rest c hf]
      exact (Finset.subset_insert _ _).trans (ih _)

/-- When the loop finishes with no error, every processed job's id is in
the final completed set. -/
theorem mem_final_of_no_error (apiKey : String)
    (respond : String → Except String ApiResponse) :
    ∀ (jobs : List Job) (c : Finset String),
      (runLoop apiKey respond jobs c).2.2 = none →
      ∀ j ∈ jobs, j.job_key ∈ (runLoop apiKey respond jobs c).2.1 := by
  intro jobs
  induction jobs with
  | nil => intro c _ j hj; simp at hj
  | cons j rest ih =>
    intro c herr j' hj'
    cases hf : fetch_data apiKey j.info.params j.year_start j.year_end respond with
    | error e => rw [runLoop_cons_error rest c hf] at herr; simp at herr
    | ok data =>
      rw [runLoop_cons_ok rest c hf] at herr ⊢
      rcases List.mem_cons.mp hj' with rfl | hj'
      · exact runLoop_mono apiKey respond rest _ (Finset.mem_insert_self _ _)
      · exact ih _ herr j' hj'

/-- The fused plan-and-filter of the source equals the full plan filtered
to ids outside the completed set, in order. -/
theorem allJobs_eq_filter (datasets : List (String × DatasetInfo))
    (S : Finset String) :
    allJobs datasets S
      = (planJobs datasets).filter fun j => decide (j.job_key ∉ S) := by
  unfold planJobs allJobs
  rw [List.filter_flatMap]
  refine congrArg datasets.flatMap (funext fun kd => ?_)
  induction kd.2.year_ranges with
  | nil => rfl
  | cons yr rest ih =>
    by_cases hmem : jobKey kd.1 yr.1 yr.2 ∈ S <;>
      simp [List.filterMap_cons, hmem, ih]

/-- When the fetch for a pending job with a unique id fails, that id is
neither in the final completed set nor in any persisted state of the
trace: the uncaught error aborts the run before the mark. -/
theorem fetch_error_not_marked (apiKey : String)
    (respond : String → Except String ApiResponse) :
    ∀ (jobs : List Job) (c : Finset String) (j : Job) (e : String),
      (jobs.map Job.job_key).Nodup → j ∈ jobs → j.job_key ∉ c →
      fetch_data apiKey j.info.params j.year_start j.year_end respond
        = .error e →
      j.job_key ∉ (runLoop apiKey respond jobs c).2.1 ∧
        noSaveContains j.job_key (runLoop apiKey respond jobs c).1 = true := by
  intro jobs
  induction jobs with
  | nil => intro c j e _ hj; simp at hj
  | cons h rest ih =>
    intro c j e hnd hj hc hf
    simp only [List.map_cons, List.nodup_cons] at hnd
    cases hfh : fetch_data apiKey h.info.params h.year_start h.year_end respond with
    | error e' =>
      rw [runLoop_cons_error rest c hfh]
      exact ⟨hc, by simp [noSaveContains]⟩
    | ok data =>
      rcases List.mem_cons.mp hj with rfl | hj'
      · rw [hf] at hfh; exact absurd hfh (by simp)
      · have hne : j.job_key ≠ h.job_key := by
          intro heq
          exact hnd.1 (heq ▸ List.mem_map_of_mem Job.job_key hj')
        have hc' : j.job_key ∉ insert h.job_key c := by
          simp [Finset.mem_insert, hne, hc]
        rw [runLoop_cons_ok rest c hfh]
        obtain ⟨hih1, hih2⟩ := ih (insert h.job_key c) j e hnd.2 hj' hc' hf
        refine ⟨hih1, ?_⟩
        cases hde : data.isEmpty <;>
          simpa [noSaveContains, hde, hc'] using hih2

/-- Walking the trace of the loop, no persisted state contains a pending
job's unique id before that job's own storage call has occurred. -/
theorem stored_before_marked_aux (apiKey : String)
    (respond : String → Except String ApiResponse) :
    ∀ (jobs : List Job) (c : Finset String) (j : Job) (data : List RecordObj),
      (jobs.map Job.job_key).Nodup → j ∈ jobs → j.job_key ∉ c →
      fetch_data apiKey j.info.params j.year_start j.year_end respond
        = .ok data →
      data ≠ [] →
      storedBeforeMarked j.job_key
        (Event.storeCall (saveIdent j) (storePayload j data) true)
        (runLoop apiKey respond jobs c).1 = true := by
  intro jobs
  induction jobs with
  | nil => intro c j data _ hj; simp at hj
  | cons h rest ih =>
    intro c j data hnd hj hc hf hdata
    simp only [List.map_cons, List.nodup_cons] at hnd
    cases hfh : fetch_data apiKey h.info.params h.year_start h.year_end respond with
    | error e' =>
      rw [runLoop_cons_error rest c hfh]
      simp [storedBeforeMarked]
    | ok dataH =>
      rcases List.mem_cons.mp hj with rfl | hj'
      · have hdd : data = dataH := by
          injection hf.symm.trans hfh
        subst hdd
        have hde : data.isEmpty = false := by
          simpa [List.isEmpty_iff] using hdata
        rw [runLoop_cons_ok rest c hfh]
        simp [storedBeforeMarked, hde]
      · have hne : j.job_key ≠ h.job_key := by
          intro heq
          exact hnd.1 (heq ▸ List.mem_map_of_mem Job.job_key hj')
        have hc' : j.job_key ∉ insert h.job_key c := by
          simp [Finset.mem_insert, hne, hc]
        rw [runLoop_cons_ok rest c hfh]
        have hih := ih (insert h.job_key c) j data hnd.2 hj' hc' hf hdata
        by_cases hst : Event.storeCall (saveIdent h) (storePayload h dataH) true
            = Event.storeCall (saveIdent j) (storePayload j data) true
        · cases hde : dataH.isEmpty <;>
            simp [storedBeforeMarked, hde, hst, hc', hih]
        · cases hde : dataH.isEmpty <;>
            simp [storedBeforeMarked, hde, hst, hc', hih]

/-- Every storage call in a loop trace belongs to some job of the list:
its identifier and payload are that job's, and that job's fetch returned
the payload's records, which are non-empty. -/
theorem store_mem_trace_shape (apiKey : String)
    (respond : String → Except String ApiResponse) :
    ∀ (jobs : List Job) (c : Finset String) (i : String) (p : Payload)
      (cp : Bool),
      Event.storeCall i p cp ∈ (runLoop apiKey respond jobs c).1 →
      ∃ j ∈ jobs, i = saveIdent j ∧ p = storePayload j p.data ∧
        fetch_data apiKey j.info.params j.year_start j.year_end respond
          = .ok p.data ∧ p.data ≠ [] := by
  intro jobs
  induction jobs with
  | nil => intro c i p cp hmem; simp [runLoop_nil] at hmem
  | cons h rest ih =>
    intro c i p cp hmem
    cases hfh : fetch_data apiKey h.info.params h.year_start h.year_end respond with
    | error e' =>
      rw [runLoop_cons_error rest c hfh] at hmem
      simp at hmem
    | ok dataH =>
      rw [runLoop_cons_ok rest c hfh] at hmem
      cases hde : dataH.isEmpty with
      | true =>
        simp [hde] at hmem
        rcases ih _ _ _ _ hmem with ⟨j, hj, hrest⟩
        exact ⟨j, List.mem_cons_of_mem h hj, hrest⟩
      | false =>
        simp [hde] at hmem
        rcases hmem with ⟨rfl, rfl, rfl⟩ | hmem
        · refine ⟨h, List.mem_cons_self h rest, rfl, rfl, ?_, ?_⟩
          · simpa [storePayload] using hfh
          · simpa [storePayload, List.isEmpty_iff] using hde
        · rcases ih _ _ _ _ hmem with ⟨j, hj, hrest⟩
          exact ⟨j, List.mem_cons_of_mem h hj, hrest⟩

/-- When every job before `j` in the pending list fetches successfully and
`j`'s fetch returns non-empty records, `j`'s storage call is in the trace. -/
theorem store_event_mem (apiKey : String)
    (respond : String → Except String ApiResponse) :
    ∀ (pre : List Job) (j : Job) (post : List Job) (c : Finset String)
      (data : List RecordObj),
      (∀ j' ∈ pre, ∃ d',
        fetch_data apiKey j'.info.params j'.year_start j'.year_end respond
          = .ok d') →
      fetch_data apiKey j.info.params j.year_start j.year_end respond
        = .ok data →
      data ≠ [] →
      Event.storeCall (saveIdent j) (storePayload j data) true
        ∈ (runLoop apiKey respond (pre ++ j :: post) c).1 := by
  intro pre
  induction pre with
  | nil =>
    intro j post c data _ hf hdata
    have hde : data.isEmpty = false := by
      simpa [List.isEmpty_iff] using hdata
    rw [List.nil_append, runLoop_cons_ok post c hf]
    simp [hde]
  | cons h pre' ih =>
    intro j post c data hpre hf hdata
    rcases hpre h (List.mem_cons_self h pre') with ⟨dh, hdh⟩
    rw [List.cons_append, runLoop_cons_ok (pre' ++ j :: post) c hdh]
    have := ih j post (insert h.job_key c) data
      (fun j' hj' => hpre j' (List.mem_cons_of_mem h hj')) hf hdata
    simp only [List.mem_cons, List.mem_append]
    right
    cases hde : dh.isEmpty <;> simp [hde, this]

/-- When every job before `j` in the pending list fetches successfully and
`j`'s fetch succeeds (even with zero records), `j`'s id ends up in the
final completed set and in some persisted state of the trace. -/
theorem marked_complete_mem (apiKey : String)
    (respond : String → Except String ApiResponse) :
    ∀ (pre : List Job) (j : Job) (post : List Job) (c : Finset String)
      (data : List RecordObj),
      (∀ j' ∈ pre, ∃ d',
        fetch_data apiKey j'.info.params j'.year_start j'.year_end respond
          = .ok d') →
      fetch_data apiKey j.info.params j.year_start j.year_end respond
        = .ok data →
      j.job_key ∈ (runLoop apiKey respond (pre ++ j :: post) c).2.1 ∧
      ∃ s, Event.stateSave s ∈ (runLoop apiKey respond (pre ++ j :: post) c).1
        ∧ j.job_key ∈ s := by
  intro pre
  induction pre with
  | nil =>
    intro j post c data _ hf
    rw [List.nil_append, runLoop_cons_ok post c hf]
    constructor
    · exact runLoop_mono apiKey respond post _ (Finset.mem_insert_self _ _)
    · refine ⟨insert j.job_key c, ?_, Finset.mem_insert_self _ _⟩
      cases hde : data.isEmpty <;> simp [hde]
  | cons h pre' ih =>
    intro j post c data hpre hf
    rcases hpre h (List.mem_cons_self h pre') with ⟨dh, hdh⟩
    rw [List.cons_append, runLoop_cons_ok (pre' ++ j :: post) c hdh]
    obtain ⟨h1, s, hs, hjs⟩ := ih j post (insert h.job_key c) data
      (fun j' hj' => hpre j' (List.mem_cons_of_mem h hj')) hf
    refine ⟨h1, s, ?_, hjs⟩
    simp only [List.mem_cons, List.mem_append]
    right
    cases hde : dh.isEmpty <;> simp [hde, hs]

theorem noStoreForIdent_iff (i : String) (evts : List Event) :
    noStoreForIdent i evts = true ↔
      ∀ (p : Payload) (cp : Bool), Event.storeCall i p cp ∉ evts := by
  unfold noStoreForIdent
  rw [List.all_eq_true]
  constructor
  · intro h p cp hmem
    have := h _ hmem
    simp at this
  · intro h e hmem
    cases e with
    | storeCall i' p cp =>
      by_cases hi : i' = i
      · subst hi; exact absurd hmem (h p cp)
      · simp [hi]
    | fetchCall s => simp
    | stateSave s => simp
    | sleepCall => simp

theorem string_append_left_cancel {s a b : String} (h : s ++ a = s ++ b) :
    a = b := by
  have hd := congrArg String.data h
  rw [String.data_append, String.data_append] at hd
  cases a with
  | mk la =>
    cases b with
    | mk lb =>
      have : la = lb := List.append_cancel_left hd
      rw [this]

/-- The `i`-th state persisted by the loop is the loaded set together with
the ids of the first `i+1` pending jobs. -/
theorem savedStates_getD (apiKey : String)
    (respond : String → Except String ApiResponse) :
    ∀ (jobs : List Job) (c : Finset String) (i : Nat),
      i < (savedStates (runLoop apiKey respond jobs c).1).length →
      (savedStates (runLoop apiKey respond jobs c).1).getD i ∅
        = c ∪ ((jobs.take (i+1)).map Job.job_key).toFinset := by
  intro jobs
  induction jobs with
  | nil => intro c i hi; simp [runLoop_nil, savedStates] at hi
  | cons h rest ih =>
    intro c i hi
    cases hfh : fetch_data apiKey h.info.params h.year_start h.year_end respond with
    | error e =>
      rw [runLoop_cons_error rest c hfh] at hi
      simp [savedStates] at hi
    | ok data =>
      rw [runLoop_cons_ok rest c hfh] at hi ⊢
      have hss : savedStates
          (Event.fetchCall h.job_key ::
            ((if data.isEmpty then []
              else [Event.storeCall (saveIdent h) (storePayload h data) true]) ++
              Event.stateSave (insert h.job_key c) :: Event.sleepCall ::
                (runLoop apiKey respond rest (insert h.job_key c)).1))
          = insert h.job_key c ::
              savedStates (runLoop apiKey respond rest (insert h.job_key c)).1 := by
        cases hde : data.isEmpty <;> simp [savedStates, hde]
      rw [hss] at hi ⊢
      cases i with
      | zero =>
        simp only [List.getD_cons_zero]
        ext a
        simp [or_comm]
      | succ i' =>
        simp only [List.getD_cons_succ]
        rw [ih _ i' (by simpa using hi)]
        have htake : (h :: rest).take (i' + 2) = h :: rest.take (i' + 1) := rfl
        rw [htake]
        ext a
        simp

/-- A run with no uncaught error persists state exactly once per pending
job. -/
theorem savedStates_length (apiKey : String)
    (respond : String → Except String ApiResponse) :
    ∀ (jobs : List Job) (c : Finset String),
      (runLoop apiKey respond jobs c).2.2 = none →
      (savedStates (runLoop apiKey respond jobs c).1).length = jobs.length := by
  intro jobs
  induction jobs with
  | nil => intro c _; simp [runLoop_nil, savedStates]
  | cons h rest ih =>
    intro c herr
    cases hfh : fetch_data apiKey h.info.params h.year_start h.year_end respond with
    | error e =>
      rw [runLoop_cons_error rest c hfh] at herr
      simp at herr
    | ok data =>
      rw [runLoop_cons_ok rest c hfh] at herr ⊢
      have herr' : (runLoop apiKey respond rest (insert h.job_key c)).2.2
          = none := by simpa using herr
      cases hde : data.isEmpty <;>
        simpa [savedStates, hde] using ih _ herr'

/-- Every state persisted by the loop contains the loaded set. -/
theorem mem_savedStates_superset (apiKey : String)
    (respond : String → Except String ApiResponse) :
    ∀ (jobs : List Job) (c : Finset String) (s : Finset String),
      s ∈ savedStates (runLoop apiKey respond jobs c).1 → c ⊆ s := by
  intro jobs
  induction jobs with
  | nil => intro c s hs; simp [runLoop_nil, savedStates] at hs
  | cons h rest ih =>
    intro c s hs
    cases hfh : fetch_data apiKey h.info.params h.year_start h.year_end respond with
    | error e =>
      rw [runLoop_cons_error rest c hfh] at hs
      simp [savedStates] at hs
    | ok data =>
      rw [runLoop_cons_ok rest c hfh] at hs
      have hss : s = insert h.job_key c ∨
          s ∈ savedStates (runLoop apiKey respond rest (insert h.job_key c)).1 := by
        cases hde : data.isEmpty <;> simpa [savedStates, hde] using hs
      rcases hss with rfl | hss
      · exact Finset.subset_insert _ _
      · exact (Finset.subset_insert _ _).trans (ih _ _ hss)

/-- After a run that finished with no error, no planned job of the catalog
is still pending against the final completed set. -/
theorem run_final_covers (datasets : List (String × DatasetInfo))
    (apiKey : String) (respond : String → Except String ApiResponse)
    (persisted : Finset String) (evts : List Event) (final : Finset String)
    (h : run datasets apiKey respond persisted = (evts, final, none)) :
    allJobs datasets final = [] := by
  by_cases hemp : (allJobs datasets persisted).isEmpty
  · have : final = persisted := by
      simp [run, hemp] at h
      exact h.2.symm
    rw [this]
    exact List.isEmpty_iff.mp hemp
  · have hrl : runLoop apiKey respond (allJobs datasets persisted) persisted
        = (evts, final, none) := by
      simpa [run, hemp] using h
    have h21 : (runLoop apiKey respond (allJobs datasets persisted) persisted).2.1
        = final := by rw [hrl]
    have h22 : (runLoop apiKey respond (allJobs datasets persisted) persisted).2.2
        = none := by rw [hrl]
    rw [allJobs_eq_filter]
    rw [List.filter_eq_nil_iff]
    intro j hj
    simp only [decide_eq_true_eq, Decidable.not_not]
    by_cases hjp : j.job_key ∈ persisted
    · have := runLoop_mono apiKey respond (allJobs datasets persisted) persisted hjp
      rwa [h21] at this
    · have hmem : j ∈ allJobs datasets persisted := by
        rw [allJobs_eq_filter]
        exact List.mem_filter.mpr ⟨hj, by simpa using hjp⟩
      have := mem_final_of_no_error apiKey respond _ _ h22 j hmem
      rwa [h21] at this

/-- Small concrete fixtures used by the witness theorems. -/
def wInfo : DatasetInfo :=
  ⟨[("commodity_desc", "CORN"), ("statisticcat_desc", "PRODUCTION")],
   "Corn Production", "Corn production by state (totals)",
   [(1950, 1989), (1990, 2025)]⟩

def wCatalog : List (String × DatasetInfo) := [("corn_production", wInfo)]

def wJob1 : Job :=
  ⟨"corn_production", wInfo, 1950, 1989, "corn_production_1950_1989"⟩

def wJob2 : Job :=
  ⟨"corn_production", wInfo, 1990, 2025, "corn_production_1990_2025"⟩

def wRecord : RecordObj := [("year", "1990"), ("Value", "1")]

def wRespondOk : String → Except String ApiResponse :=
  fun _ => .ok ⟨none, some [wRecord]⟩

def wRespondEmpty : String → Except String ApiResponse :=
  fun _ => .ok ⟨none, none⟩

def wRespondErr : String → Except String ApiResponse :=
  fun _ => .ok ⟨some "invalid commodity", none⟩

/-- C2: for every catalog-derived job list and completion set `S`, the
pending-work filter of the run loop returns exactly the planned jobs whose
`job_key` is not in `S`, in planning order — no reordering, duplication,
or other exclusion, since it literally is a `List.filter` of the plan. -/
theorem filter_pending_exact (datasets : List (String × DatasetInfo))
    (S : Finset String) :
    allJobs datasets S
      = (planJobs datasets).filter fun j => decide (j.job_key ∉ S) :=
  allJobs_eq_filter datasets S

/-- C3: job planning is a pure function of the catalog producing one job
per (dataset, year window) pair in catalog order then window order, with
id `dataset_key ++ "_" ++ year_start ++ "_" ++ year_end`; a spec with
windows [(1950,1989),(1990,2025)] yields exactly the ids
`<key>_1950_1989` and `<key>_1990_2025`. -/
theorem plan_jobs_deterministic_ids (datasets : List (String × DatasetInfo)) :
    ((planJobs datasets).map fun j => (j.dataset_key, j.year_start, j.year_end))
        = (datasets.flatMap fun kd =>
            kd.2.year_ranges.map fun yr => (kd.1, yr.1, yr.2)) ∧
    (∀ j ∈ planJobs datasets,
      j.job_key = jobKey j.dataset_key j.year_start j.year_end) ∧
    ∀ (key : String) (ps : List (String × String)) (nm ds : String),
      (planJobs [(key, ⟨ps, nm, ds, [(1950, 1989), (1990, 2025)]⟩)]).map
          Job.job_key
        = [key ++ "_1950_1989", key ++ "_1990_2025"] := by
  have hkey : ∀ (k : String) (ys ye : Nat) (a b : String),
      toString ys = a → toString ye = b →
      jobKey k ys ye = k ++ ("_" ++ a ++ "_" ++ b) := by
    intro k ys ye a b ha hb
    simp only [jobKey, ha, hb, String.append_assoc]
  refine ⟨?_, ?_, ?_⟩
  · unfold planJobs allJobs
    rw [List.map_flatMap]
    refine congrArg datasets.flatMap (funext fun kd => ?_)
    induction kd.2.year_ranges with
    | nil => rfl
    | cons yr rest ih =>
      simp only [Finset.not_mem_empty, if_false] at ih
      simp [List.filterMap_cons, ih]
  · intro j hj
    unfold planJobs allJobs at hj
    rcases List.mem_flatMap.mp hj with ⟨kd, _, hmem⟩
    rcases List.mem_filterMap.mp hmem with ⟨yr, _, hsome⟩
    simp only [Finset.not_mem_empty, if_false, Option.some.injEq] at hsome
    rw [← hsome]
  · intro key ps nm ds
    have h1 : jobKey key 1950 1989 = key ++ "_1950_1989" := by
      rw [hkey key 1950 1989 "1950" "1989" rfl rfl]
      exact congrArg (key ++ ·) rfl
    have h2 : jobKey key 1990 2025 = key ++ "_1990_2025" := by
      rw [hkey key 1990 2025 "1990" "2025" rfl rfl]
      exact congrArg (key ++ ·) rfl
    simp [planJobs, allJobs, h1, h2]

theorem plan_jobs_deterministic_ids_witness :
    wJob1.job_key = jobKey wJob1.dataset_key wJob1.year_start wJob1.year_end ∧
    (planJobs [("corn_production",
        ⟨[("commodity_desc", "CORN")], "Corn", "corn",
          [(1950, 1989), (1990, 2025)]⟩)]).map Job.job_key
      = ["corn_production" ++ "_1950_1989", "corn_production" ++ "_1990_2025"] :=
  ⟨(plan_jobs_deterministic_ids wCatalog).2.1 wJob1 (by decide),
   (plan_jobs_deterministic_ids []).2.2 "corn_production"
     [("commodity_desc", "CORN")] "Corn" "corn"⟩

/-- C4: a response whose body carries an `error` field makes `fetch_data`
raise a `RuntimeError` whose message carries the remote error text; the
run loop does not catch it, so the job's id never enters the completed
set. -/
theorem error_field_raises (apiKey : String) (params : List (String × String))
    (year_start year_end : Nat)
    (respond : String → Except String ApiResponse) (resp : ApiResponse)
    (msg : String)
    (hresp : respond (urlFor apiKey params year_start year_end) = .ok resp)
    (herr : resp.error = some msg) :
    fetch_data apiKey params year_start year_end respond
      = .error ("NASS API error: " ++ msg) ∧
    ∀ (jobs : List Job) (c : Finset String) (j : Job),
      (jobs.map Job.job_key).Nodup → j ∈ jobs → j.job_key ∉ c →
      j.info.params = params → j.year_start = year_start →
      j.year_end = year_end →
      j.job_key ∉ (runLoop apiKey respond jobs c).2.1 := by
  have hfd : fetch_data apiKey params year_start year_end respond
      = .error ("NASS API error: " ++ msg) := by
    simp [fetch_data, hresp, herr]
  refine ⟨hfd, ?_⟩
  intro jobs c j hnd hj hc hp hys hye
  exact (fetch_error_not_marked apiKey respond jobs c j _ hnd hj hc
    (by rw [hp, hys, hye]; exact hfd)).1

theorem error_field_raises_witness :
    fetch_data "K" wInfo.params 1950 1989 wRespondErr
      = .error ("NASS API error: " ++ "invalid commodity") ∧
    wJob1.job_key ∉ (runLoop "K" wRespondErr [wJob1, wJob2] ∅).2.1 := by
  have h := error_field_raises "K" wInfo.params 1950 1989 wRespondErr
    ⟨some "invalid commodity", none⟩ "invalid commodity" rfl rfl
  exact ⟨h.1, h.2 [wJob1, wJob2] ∅ wJob1 (by decide) (by decide) (by decide)
    rfl rfl rfl⟩

/-- C5: a response body with neither an `error` field nor a `data` field
(such as the empty object) makes `fetch_data` return the empty record
list without raising. -/
theorem missing_data_yields_empty (apiKey : String)
    (params : List (String × String)) (year_start year_end : Nat)
    (respond : String → Except String ApiResponse) (resp : ApiResponse)
    (hresp : respond (urlFor apiKey params year_start year_end) = .ok resp)
    (herr : resp.error = none) (hdat : resp.data = none) :
    fetch_data apiKey params year_start year_end respond = .ok [] := by
  simp [fetch_data, hresp, herr, hdat]

theorem missing_data_yields_empty_witness :
    fetch_data "K" wInfo.params 1950 1989 wRespondEmpty = .ok [] :=
  missing_data_yields_empty "K" wInfo.params 1950 1989 wRespondEmpty
    ⟨none, none⟩ rfl rfl rfl

/-- C9: the query string places `quote` around every parameter value
(credential, format, year bounds and dataset filters alike), and `quote`
output never contains an unencoded unsafe character — every character is
URL-safe or part of a `%XX` escape, a space in particular becoming `%20`. -/
theorem query_values_percent_encoded (apiKey : String)
    (params : List (String × String)) (year_start year_end : Nat) :
    queryStringOf apiKey params year_start year_end
      = String.intercalate "&"
          ((queryParams apiKey params year_start year_end).map fun kv =>
            kv.1 ++ "=" ++ quote kv.2) ∧
    (∀ (s : String) (c : Char),
      c ∈ (quote s).data → isSafeChar c = true ∨ c = '%') ∧
    (∀ s : String, ' ' ∉ (quote s).data) ∧
    quote "AREA HARVESTED" = "AREA%20HARVESTED" :=
  ⟨rfl, fun _ _ h => mem_quote_data h, space_not_mem_quote, by decide⟩

theorem query_values_percent_encoded_witness :
    (isSafeChar 'A' = true ∨ 'A' = '%') ∧
    ' ' ∉ (quote "AREA HARVESTED").data :=
  ⟨(query_values_percent_encoded "K" [] 0 0).2.1 "AREA HARVESTED" 'A'
      (by decide),
   (query_values_percent_encoded "K" [] 0 0).2.2.1 "AREA HARVESTED"⟩

/-- C10: in the merged query dict the dataset's literal params are written
after the fixed parameters, so a dataset param named `key`, `format`,
`year__GE` or `year__LE` silently replaces the fixed value, and the year
bound arguments only take effect when the dataset params do not name those
fields; all other fields come from the dataset params alone. -/
theorem dataset_params_override_fixed (apiKey : String)
    (params : List (String × String)) (year_start year_end : Nat)
    (hnd : (params.map Prod.fst).Nodup) :
    dictGet (queryParams apiKey params year_start year_end) "key"
        = some ((dictGet params "key").getD apiKey) ∧
    dictGet (queryParams apiKey params year_start year_end) "format"
        = some ((dictGet params "format").getD "JSON") ∧
    dictGet (queryParams apiKey params year_start year_end) "year__GE"
        = some ((dictGet params "year__GE").getD (toString year_start)) ∧
    dictGet (queryParams apiKey params year_start year_end) "year__LE"
        = some ((dictGet params "year__LE").getD (toString year_end)) ∧
    ∀ f, f ∉ ["key", "format", "year__GE", "year__LE"] →
      dictGet (queryParams apiKey params year_start year_end) f
        = dictGet params f := by
  refine ⟨?_, ?_, ?_, ?_, ?_⟩
  · rw [dictGet_queryParams apiKey params year_start year_end _ hnd]
    cases hh : dictGet params "key" <;> simp [hh, fixedParams, dictGet]
  · rw [dictGet_queryParams apiKey params year_start year_end _ hnd]
    cases hh : dictGet params "format" <;> simp [hh, fixedParams, dictGet]
  · rw [dictGet_queryParams apiKey params year_start year_end _ hnd]
    cases hh : dictGet params "year__GE" <;> simp [hh, fixedParams, dictGet]
  · rw [dictGet_queryParams apiKey params year_start year_end _ hnd]
    cases hh : dictGet params "year__LE" <;> simp [hh, fixedParams, dictGet]
  · intro f hf
    simp only [List.mem_cons, List.not_mem_nil, or_false] at hf
    push_neg at hf
    obtain ⟨h1, h2, h3, h4⟩ := hf
    rw [dictGet_queryParams apiKey params year_start year_end _ hnd]
    have hfix : dictGet (fixedParams apiKey year_start year_end) f = none := by
      simp [fixedParams, dictGet, Ne.symm h1, Ne.symm h2, Ne.symm h3,
        Ne.symm h4]
    cases hh : dictGet params f <;> simp [hh, hfix]

theorem dataset_params_override_fixed_witness :
    dictGet (queryParams "K" [("format", "CSV"), ("commodity_desc", "CORN")]
        1950 2025) "format"
      = some ((dictGet [("format", "CSV"), ("commodity_desc", "CORN")]
          "format").getD "JSON") ∧
    dictGet (queryParams "K" [("format", "CSV"), ("commodity_desc", "CORN")]
        1950 2025) "commodity_desc"
      = dictGet [("format", "CSV"), ("commodity_desc", "CORN")]
          "commodity_desc" := by
  have h := dataset_params_override_fixed "K"
    [("format", "CSV"), ("commodity_desc", "CORN")] 1950 2025 (by decide)
  exact ⟨h.2.1, h.2.2.2.2 "commodity_desc" (by decide)⟩

/-- C1: walking the run-loop trace, a pending job's id appears in a
persisted completion state only after that job's storage call has
occurred; and when the job's fetch raises, the id is in no persisted
state and not in the final completed set. -/
theorem storage_before_completion_mark (apiKey : String)
    (respond : String → Except String ApiResponse) (jobs : List Job)
    (c : Finset String) (j : Job)
    (hnd : (jobs.map Job.job_key).Nodup) (hj : j ∈ jobs)
    (hc : j.job_key ∉ c) :
    (∀ data,
      fetch_data apiKey j.info.params j.year_start j.year_end respond
        = .ok data →
      data ≠ [] →
      storedBeforeMarked j.job_key
        (Event.storeCall (saveIdent j) (storePayload j data) true)
        (runLoop apiKey respond jobs c).1 = true) ∧
    (∀ e,
      fetch_data apiKey j.info.params j.year_start j.year_end respond
        = .error e →
      j.job_key ∉ (runLoop apiKey respond jobs c).2.1 ∧
        noSaveContains j.job_key (runLoop apiKey respond jobs c).1 = true) :=
  ⟨fun data hf hd =>
      stored_before_marked_aux apiKey respond jobs c j data hnd hj hc hf hd,
   fun e hf => fetch_error_not_marked apiKey respond jobs c j e hnd hj hc hf⟩

theorem storage_before_completion_mark_witness :
    storedBeforeMarked wJob1.job_key
      (Event.storeCall (saveIdent wJob1) (storePayload wJob1 [wRecord]) true)
      (runLoop "K" wRespondOk [wJob1, wJob2] ∅).1 = true :=
  (storage_before_completion_mark "K" wRespondOk [wJob1, wJob2] ∅ wJob1
      (by decide) (by decide) (by decide)).1 [wRecord] rfl (by decide)

/-- C6: a reachable job whose fetch returns zero records triggers no
storage call for its identifier, yet its id still enters the completed set
and a persisted state; a job whose fetch returns records gets a storage
call carrying the dataset key, name, description, year bounds and the
records, under the identifier `nass_<key>_<year_start>_<year_end>`. -/
theorem empty_skips_store_nonempty_stores (apiKey : String)
    (respond : String → Except String ApiResponse) (pre : List Job) (j : Job)
    (post : List Job) (c : Finset String)
    (hw : ∀ j' ∈ pre ++ j :: post, wfJob j')
    (hnd : ((pre ++ j :: post).map Job.job_key).Nodup)
    (hpre : ∀ j' ∈ pre, ∃ d',
      fetch_data apiKey j'.info.params j'.year_start j'.year_end respond
        = .ok d') :
    (fetch_data apiKey j.info.params j.year_start j.year_end respond
        = .ok [] →
      noStoreForIdent ("nass_" ++ j.job_key)
          (runLoop apiKey respond (pre ++ j :: post) c).1 = true ∧
      j.job_key ∈ (runLoop apiKey respond (pre ++ j :: post) c).2.1 ∧
      ∃ s, Event.stateSave s ∈ (runLoop apiKey respond (pre ++ j :: post) c).1
        ∧ j.job_key ∈ s) ∧
    (∀ data,
      fetch_data apiKey j.info.params j.year_start j.year_end respond
        = .ok data →
      data ≠ [] →
      Event.storeCall ("nass_" ++ jobKey j.dataset_key j.year_start j.year_end)
          (storePayload j data) true
        ∈ (runLoop apiKey respond (pre ++ j :: post) c).1) := by
  constructor
  · intro hf0
    refine ⟨?_,
      (marked_complete_mem apiKey respond pre j post c [] hpre hf0).1,
      (marked_complete_mem apiKey respond pre j post c [] hpre hf0).2⟩
    rw [noStoreForIdent_iff]
    intro p cp hmem
    rcases store_mem_trace_shape apiKey respond _ c _ p cp hmem with
      ⟨j', hj', hi, _, hfj', hne⟩
    have hw' := hw j' hj'
    rw [wfJob] at hw'
    rw [saveIdent, ← hw'] at hi
    have hkey : j.job_key = j'.job_key := string_append_left_cancel hi
    have hjj : j = j' := List.inj_on_of_nodup_map hnd (by simp) hj' hkey
    rw [← hjj, hf0] at hfj'
    injection hfj' with hh
    exact hne hh.symm
  · intro data hf hd
    simpa [saveIdent] using
      store_event_mem apiKey respond pre j post c data hpre hf hd

theorem empty_skips_store_nonempty_stores_witness :
    noStoreForIdent ("nass_" ++ wJob1.job_key)
      (runLoop "K" wRespondEmpty ([] ++ wJob1 :: [wJob2]) ∅).1 = true ∧
    wJob1.job_key ∈ (runLoop "K" wRespondEmpty ([] ++ wJob1 :: [wJob2]) ∅).2.1 := by
  have h := (empty_skips_store_nonempty_stores "K" wRespondEmpty [] wJob1
    [wJob2] ∅
    (by intro j' hj'; simp at hj'; rcases hj' with rfl | rfl <;> rfl)
    (by decide)
    (by intro j' hj'; simp at hj')).1 rfl
  exact ⟨h.1, h.2.1⟩

/-- C7: the sequence of persisted completion sets of one run: state is
loaded once, the `i`-th persisted set is the loaded set plus the ids of
the jobs completed so far (one save per completed job, not batched), and
each persisted set is a superset of the previous one and of the loaded
set. -/
theorem completion_state_monotone (apiKey : String)
    (respond : String → Except String ApiResponse) (jobs : List Job)
    (c : Finset String) :
    (∀ i, i < (savedStates (runLoop apiKey respond jobs c).1).length →
      (savedStates (runLoop apiKey respond jobs c).1).getD i ∅
        = c ∪ ((jobs.take (i + 1)).map Job.job_key).toFinset) ∧
    (∀ i, i + 1 < (savedStates (runLoop apiKey respond jobs c).1).length →
      (savedStates (runLoop apiKey respond jobs c).1).getD i ∅
        ⊆ (savedStates (runLoop apiKey respond jobs c).1).getD (i + 1) ∅) ∧
    (∀ s ∈ savedStates (runLoop apiKey respond jobs c).1, c ⊆ s) ∧
    ((runLoop apiKey respond jobs c).2.2 = none →
      (savedStates (runLoop apiKey respond jobs c).1).length = jobs.length) := by
  refine ⟨savedStates_getD apiKey respond jobs c, ?_,
    mem_savedStates_superset apiKey respond jobs c,
    savedStates_length apiKey respond jobs c⟩
  intro i hi
  rw [savedStates_getD apiKey respond jobs c i (by omega),
    savedStates_getD apiKey respond jobs c (i + 1) hi]
  have hsub : jobs.take (i + 1) ⊆ jobs.take (i + 2) := by
    have ht := List.take_take (i + 1) (i + 2) jobs
    rw [inf_eq_left.mpr (by omega : i + 1 ≤ i + 2)] at ht
    rw [← ht]
    exact List.take_subset _ _
  refine Finset.union_subset_union (Finset.Subset.refl c) ?_
  intro a ha
  rw [List.mem_toFinset] at ha ⊢
  rcases List.mem_map.mp ha with ⟨x, hx, rfl⟩
  exact List.mem_map_of_mem _ (hsub hx)

theorem completion_state_monotone_witness :
    (savedStates (runLoop "K" wRespondOk [wJob1, wJob2] ∅).1).getD 0 ∅
      = ∅ ∪ (([wJob1, wJob2].take 1).map Job.job_key).toFinset ∧
    (savedStates (runLoop "K" wRespondOk [wJob1, wJob2] ∅).1).getD 0 ∅
      ⊆ (savedStates (runLoop "K" wRespondOk [wJob1, wJob2] ∅).1).getD 1 ∅ ∧
    (savedStates (runLoop "K" wRespondOk [wJob1, wJob2] ∅).1).length = 2 := by
  have h := completion_state_monotone "K" wRespondOk [wJob1, wJob2] ∅
  exact ⟨h.1 0 (by decide), h.2.1 0 (by decide), h.2.2.2 (by decide)⟩

/-- C8: after a run that completed with no error, no planned job is
pending against the final persisted state, so an immediate second run with
the same catalog performs no fetch, storage or state-write events and
returns at once. -/
theorem second_run_idle (datasets : List (String × DatasetInfo))
    (apiKey : String) (respond respond2 : String → Except String ApiResponse)
    (persisted : Finset String) (evts : List Event) (final : Finset String)
    (h : run datasets apiKey respond persisted = (evts, final, none)) :
    allJobs datasets final = [] ∧
    run datasets apiKey respond2 final = ([], final, none) := by
  have hcov := run_final_covers datasets apiKey respond persisted evts final h
  exact ⟨hcov, by simp [run, hcov]⟩

theorem second_run_idle_witness :
    allJobs wCatalog (run wCatalog "K" wRespondOk ∅).2.1 = [] ∧
    run wCatalog "K" wRespondOk (run wCatalog "K" wRespondOk ∅).2.1
      = ([], (run wCatalog "K" wRespondOk ∅).2.1, none) :=
  second_run_idle wCatalog "K" wRespondOk wRespondOk ∅
    (run wCatalog "K" wRespondOk ∅).1 (run wCatalog "K" wRespondOk ∅).2.1
    (by decide)

end NASS
